import Mathlib

/-!
Verification of the order status propagation core of the bitesSpace
food-pickup platform, embedded shallowly from the frontend sources
(`src/Frontend/src/components/vendor/OrderQueue.tsx` inside
`OrderCard.tsx`, `QRCodeScanner.tsx`, `pages/CheckoutPage.tsx`, and the
customer tracking page).  JavaScript arrays become `List`, the closed
status strings become an inductive type, machine timestamps become `Nat`
(milliseconds since epoch, the value of `Date.getTime`), and monetary
amounts become `Rat`.  `Array.prototype.sort` with a comparator is
modelled as a stable merge sort, per the ECMAScript stability
requirement; the comparator itself is translated verbatim.
-/

namespace BitesSpace

/-- The closed set of order statuses used across the frontend
(`status: "PLACED" | "PREPARING" | "READY_FOR_PICKUP" | "COMPLETED" | "REJECTED"`). -/
inductive Status where
  | PLACED
  | PREPARING
  | READY_FOR_PICKUP
  | COMPLETED
  | REJECTED
deriving DecidableEq, Repr

/-- The order record as held by the vendor queue client store
(`OrderQueue.tsx` interface `Order`), restricted to the fields the
status-propagation logic reads: the Mongo `id`, the customer-facing
`orderId` (custom UUID), the `status`, and the placement timestamp
(`orderTime`, modelled as `Date.getTime()` milliseconds). -/
structure Order where
  id : String
  orderId : String
  status : Status
  orderTime : Nat
deriving DecidableEq, Repr

/-! ## A generic stable merge sort, modelling `Array.prototype.sort` -/

/-- Merge two runs, taking from the left run whenever the comparator
keeps the left element (ties included): the merge step of a stable
merge sort. -/
def mergeRuns {α : Type} (le : α → α → Bool) : List α → List α → List α
  | [], r => r
  | l, [] => l
  | a :: l, b :: r =>
    if le a b then a :: mergeRuns le l (b :: r) else b :: mergeRuns le (a :: l) r
termination_by l r => l.length + r.length

/-- Stable merge sort: split in halves, sort each, merge. -/
def stableSort {α : Type} (le : α → α → Bool) : List α → List α
  | [] => []
  | [a] => [a]
  | a :: b :: rest =>
    let n := (a :: b :: rest).length / 2
    mergeRuns le (stableSort le ((a :: b :: rest).take n))
      (stableSort le ((a :: b :: rest).drop n))
termination_by l => l.length
decreasing_by
  · simp only [List.length_take, List.length_cons]
    omega
  · simp only [List.length_drop, List.length_cons]
    omega

/-! ## The vendor queue sort (`sortOrders` in `OrderQueue.tsx`) -/

/-- The comparator `sortOrders` passes to `Array.prototype.sort`
(`OrderQueue.tsx` lines 190-197): for a pair of `PLACED` orders it
returns `b.orderTime - a.orderTime` (newest first), for every other
pair it returns `0`. -/
def jsCompare (a b : Order) : Int :=
  if a.status = Status.PLACED ∧ b.status = Status.PLACED then
    (b.orderTime : Int) - (a.orderTime : Int)
  else 0

/-- A stable sort keeps `a` before `b` exactly when the comparator does
not order `b` strictly before `a`, i.e. when `jsCompare a b ≤ 0`. -/
def keepsOrder (a b : Order) : Bool := jsCompare a b ≤ 0

/-- The function `sortOrders` (`OrderQueue.tsx` lines 187-198): a stable sort of a
copy of the array under `jsCompare`. -/
def sortOrders (l : List Order) : List Order := stableSort keepsOrder l

/-! ## Transition edges and the vendor queue actions -/

/-- The ordered pairs the spec lists as the legal transition edges
(§4.1).  This definition follows the words of the spec, to be compared
with the behaviour embedded from the source. -/
def specLegalEdges : List (Status × Status) :=
  [(Status.PLACED, Status.PREPARING), (Status.PLACED, Status.REJECTED),
   (Status.PREPARING, Status.READY_FOR_PICKUP),
   (Status.READY_FOR_PICKUP, Status.COMPLETED)]

/-- The target statuses for which the vendor queue renders an action
button on an order of the given status (`OrderQueue.tsx` lines 394-500:
Accept and Reject on `PLACED`, Mark as Ready on `PREPARING`, Mark as
Completed on `READY_FOR_PICKUP`, no action on historical orders). -/
def queueActions (s : Status) : List Status :=
  match s with
  | Status.PLACED => [Status.PREPARING, Status.REJECTED]
  | Status.PREPARING => [Status.READY_FOR_PICKUP]
  | Status.READY_FOR_PICKUP => [Status.COMPLETED]
  | Status.COMPLETED => []
  | Status.REJECTED => []

/-- The error the Transition Validator reports on an illegal edge. -/
inductive TransitionError where
  | invalidTransition
deriving DecidableEq, Repr

/-- Modelled from the spec: the backend order service holding the
Transition Validator is absent from src (only the frontend is present);
§4.1 defines `canTransition(current, requested)` as true exactly on the
legal edges. -/
def canTransition (current requested : Status) : Bool :=
  (current, requested) ∈ specLegalEdges

/-- Modelled from the spec: §4.1 `applyTransition(order, requested)`
returns the order carrying the new status when the edge is legal, and
`InvalidTransition` otherwise. -/
def applyTransition (o : Order) (requested : Status) :
    Except TransitionError Order :=
  if canTransition o.status requested then
    Except.ok { o with status := requested }
  else
    Except.error TransitionError.invalidTransition

/-! ## The client order store operations -/

/-- The optimistic mutation of `handleStatusChange` (`OrderQueue.tsx`
lines 276-284): map over the held orders, replacing the status of the
order whose custom `orderId` matches, then re-sort. -/
def optimisticUpdate (orders : List Order) (orderCustomId : String)
    (newStatus : Status) : List Order :=
  sortOrders (orders.map fun o =>
    if o.orderId = orderCustomId then { o with status := newStatus } else o)

/-- The rollback of `handleStatusChange` (line 318): replace the store
with the sorted snapshot captured at entry. -/
def rollbackOrders (prevOrdersState : List Order) : List Order :=
  sortOrders prevOrdersState

/-- The websocket ingest handler of the vendor queue (`OrderQueue.tsx`
lines 238-250): replace the record with the same Mongo `id` wholesale,
or prepend a completely new order, then re-sort. -/
def ingest (orders : List Order) (updatedOrder : Order) : List Order :=
  match orders.findIdx? (fun o => o.id = updatedOrder.id) with
  | some i => sortOrders (orders.set i updatedOrder)
  | none => sortOrders (updatedOrder :: orders)

/-- The ingest handler of the customer tracking page (part_005 lines
125-142): `setOrder(updatedOrder)` replaces the tracked record
outright, with no merge. -/
def trackerIngest (_current : Option Order) (updatedOrder : Order) :
    Option Order :=
  some updatedOrder

/-- The record a viewer sees for a given Mongo id (first match). -/
def recordOf (orders : List Order) (mongoId : String) : Option Order :=
  orders.find? (fun o => o.id = mongoId)

/-- The visible status of the order with the given custom `orderId`. -/
def statusOf (orders : List Order) (orderCustomId : String) : Option Status :=
  (orders.find? (fun o => o.orderId = orderCustomId)).map Order.status

/-! ## The command dispatch of `handleStatusChange` -/

/-- Which transport a transition request is sent on: the synchronous
HTTP PUT or the fire-and-forget stomp publish. -/
inductive Transport where
  | http
  | stomp
deriving DecidableEq, Repr

/-- A dispatched transition request: the PUT body, respectively the
publish message body, `{ orderId, newStatus, vendorId }`. -/
structure TransitionRequest where
  transport : Transport
  orderId : String
  newStatus : Status
  vendorId : String
deriving DecidableEq, Repr

/-- The transport `handleStatusChange` chooses from the current status
(line 287): the HTTP PUT when the order is still `PLACED`, the stomp
publish otherwise. -/
def routeTransport (currentOrderStatus : Status) : Transport :=
  if currentOrderStatus = Status.PLACED then Transport.http
  else Transport.stomp

/-- The outcome of one `handleStatusChange` call: the resulting store,
the dispatch attempts issued during the call, and whether the catch
branch ran (rollback plus destructive toast). -/
structure HandleOutcome where
  orders : List Order
  requests : List TransitionRequest
  rolledBack : Bool
  errorToast : Bool
deriving DecidableEq, Repr

/-- One call of `handleStatusChange` (`OrderQueue.tsx` lines 272-321),
parametrised by whether the stomp client is connected and whether the
single transport call fails (the awaited PUT rejecting, or the publish
throwing).  The snapshot used by the rollback is the store value read
at entry (`const prevOrdersState = orders`), per the single-threaded
event-loop model of the client. -/
def handleStatusChange (stompConnected dispatchFails : Bool)
    (orders : List Order) (orderCustomId : String)
    (currentOrderStatus newStatus : Status) (vendorId : String) :
    HandleOutcome :=
  let prevOrdersState := orders
  let optimistic := optimisticUpdate orders orderCustomId newStatus
  let req : TransitionRequest :=
    { transport := routeTransport currentOrderStatus,
      orderId := orderCustomId, newStatus := newStatus, vendorId := vendorId }
  if currentOrderStatus = Status.PLACED then
    if dispatchFails then
      { orders := rollbackOrders prevOrdersState, requests := [req],
        rolledBack := true, errorToast := true }
    else
      { orders := optimistic, requests := [req],
        rolledBack := false, errorToast := false }
  else if stompConnected then
    if dispatchFails then
      { orders := rollbackOrders prevOrdersState, requests := [req],
        rolledBack := true, errorToast := true }
    else
      { orders := optimistic, requests := [req],
        rolledBack := false, errorToast := false }
  else
    { orders := rollbackOrders prevOrdersState, requests := [],
      rolledBack := true, errorToast := true }

/-- Arguments the Accept button passes to `handleStatusChange`
(`OrderQueue.tsx` line 403): the custom `orderId`. -/
def acceptArgs (o : Order) : String × Status × Status :=
  (o.orderId, o.status, Status.PREPARING)

/-- Arguments the Reject button passes to `handleStatusChange`
(`OrderQueue.tsx` line 412): the Mongo `id`, not the custom `orderId`. -/
def rejectArgs (o : Order) : String × Status × Status :=
  (o.id, o.status, Status.REJECTED)

/-- Arguments the Mark as Ready button passes (line 441). -/
def readyArgs (o : Order) : String × Status × Status :=
  (o.orderId, o.status, Status.READY_FOR_PICKUP)

/-- Arguments the Mark as Completed button passes (line 470). -/
def completeArgs (o : Order) : String × Status × Status :=
  (o.orderId, o.status, Status.COMPLETED)

/-! ## The vendor queue view -/

/-- The four display sections of the vendor queue. -/
structure VendorView where
  pending : List Order
  preparing : List Order
  ready : List Order
  historical : List Order
deriving DecidableEq, Repr

/-- The grouping of the held orders into display sections
(`OrderQueue.tsx` lines 378-381): filters of the stored array by
status, with `COMPLETED` and `REJECTED` merged as historical. -/
def vendorView (orders : List Order) : VendorView :=
  { pending := orders.filter fun o => o.status = Status.PLACED,
    preparing := orders.filter fun o => o.status = Status.PREPARING,
    ready := orders.filter fun o => o.status = Status.READY_FOR_PICKUP,
    historical := orders.filter fun o =>
      o.status = Status.COMPLETED ∨ o.status = Status.REJECTED }

/-! ## The checkout flow (`CheckoutPage.tsx`) -/

/-- A line on the checkout page: the fetched product joined with the
cart quantity. -/
structure CheckoutItem where
  id : Nat
  price : Rat
  quantity : Nat
deriving DecidableEq, Repr

/-- A line item of the posted order payload. -/
structure OrderItemPayload where
  productId : Nat
  quantity : Nat
  priceAtOrder : Rat
deriving DecidableEq, Repr

/-- The part of the posted order payload the claims read. -/
structure OrderPayload where
  status : Status
  totalAmount : Rat
  items : List OrderItemPayload
deriving DecidableEq, Repr

/-- Model of `Math.round`: nearest integer, ties toward positive infinity.
JavaScript number arithmetic is modelled by exact rationals. -/
def jsRound (q : Rat) : Int := ⌊q + 1 / 2⌋

/-- The subtotal computed on the checkout page (line 125):
`checkoutItems.reduce((sum, item) => sum + item.price * item.quantity, 0)`. -/
def subtotal (items : List CheckoutItem) : Rat :=
  items.foldl (fun sum item => sum + item.price * (item.quantity : Rat)) 0

/-- The tax line `taxes = Math.round(subtotal * 0.05)` (line 126). -/
def taxes (items : List CheckoutItem) : Int :=
  jsRound (subtotal items * (5 / 100))

/-- The grand total `total = subtotal + taxes` (line 127). -/
def total (items : List CheckoutItem) : Rat :=
  subtotal items + (taxes items : Rat)

/-- The order payload posted by `handlePlaceOrder` (lines 159-175):
status `PLACED`, `totalAmount` set to `total`, and line items
snapshotting the live price as `priceAtOrder`. -/
def orderPayload (items : List CheckoutItem) : OrderPayload :=
  { status := Status.PLACED,
    totalAmount := total items,
    items := items.map fun item =>
      { productId := item.id, quantity := item.quantity,
        priceAtOrder := item.price } }

/-- The sum over the line items of a payload of snapshot price times
quantity. -/
def lineItemSum (items : List OrderItemPayload) : Rat :=
  (items.map fun item => item.priceAtOrder * (item.quantity : Rat)).sum

/-! ## The QR driven completion (`QRCodeScanner.tsx`) -/

/-- The request issued by `updateOrderStatusToCompleted`
(`QRCodeScanner.tsx` lines 21-35) once a code is scanned: a synchronous
PUT carrying `newStatus: "COMPLETED"` for the scanned order
identifier. -/
def qrScanRequest (scannedOrderId : String) (vendorId : String) :
    TransitionRequest :=
  { transport := Transport.http, orderId := scannedOrderId,
    newStatus := Status.COMPLETED, vendorId := vendorId }

/-- The whole-record replacement the vendor ingest performs at the
found index, phrased as a map over the store. -/
def replaceById (u : Order) (o : Order) : Order :=
  if o.id = u.id then u else o

/-- Newest-first on placement timestamps, the order the comparator
imposes on pairs of `PLACED` orders. -/
def timeDesc (a b : Order) : Bool := b.orderTime ≤ a.orderTime

/-! ## Concrete stores used in counterexamples and witnesses -/

/-- An older `PLACED` order. -/
def exPlacedOld : Order :=
  { id := "m1", orderId := "u1", status := Status.PLACED, orderTime := 1000 }

/-- A `PREPARING` order sitting between the two `PLACED` ones. -/
def exPrepA : Order :=
  { id := "m2", orderId := "u2", status := Status.PREPARING, orderTime := 500 }

/-- A second `PREPARING` order sitting between the two `PLACED` ones. -/
def exPrepB : Order :=
  { id := "m3", orderId := "u3", status := Status.PREPARING, orderTime := 600 }

/-- A newer `PLACED` order, stored after the `PREPARING` ones. -/
def exPlacedNew : Order :=
  { id := "m4", orderId := "u4", status := Status.PLACED, orderTime := 2000 }

/-- A held order list in which the two `PLACED` orders are separated by
orders of another status. -/
def exQueue : List Order := [exPlacedOld, exPrepA, exPrepB, exPlacedNew]

/-- A `PLACED` order whose accept is dispatched on the awaited
synchronous path and will fail. -/
def cxOrderA : Order :=
  { id := "mA", orderId := "a", status := Status.PLACED, orderTime := 100 }

/-- A `PREPARING` order, optimistically marked ready while the accept
of the other order is awaited. -/
def cxOrderB : Order :=
  { id := "mB", orderId := "b", status := Status.PREPARING, orderTime := 200 }

/-- The vendor store when the failing accept starts: its entry
snapshot. -/
def cxStore0 : List Order := [cxOrderA, cxOrderB]

/-- The store after the failing accept applied its optimistic
mutation, before its HTTP call is awaited. -/
def cxStore1 : List Order := optimisticUpdate cxStore0 "a" Status.PREPARING

/-- The store after the interleaved mark-ready of the other order,
applied during the await of the failing accept. -/
def cxStore2 : List Order := optimisticUpdate cxStore1 "b" Status.READY_FOR_PICKUP

/-- A single `PLACED` order receiving two optimistic mutations before
either confirms. -/
def cxSame : Order :=
  { id := "mS", orderId := "s", status := Status.PLACED, orderTime := 10 }

/-- The `PLACED` order whose Reject button is clicked. -/
def rejectOrder : Order :=
  { id := "mongo-1", orderId := "uuid-1", status := Status.PLACED, orderTime := 1000 }

/-- A checkout line: product 1 at snapshot price 100, quantity 1. -/
def cxItem : CheckoutItem := { id := 1, price := 100, quantity := 1 }

/-- The stored record of an order before any event arrives. -/
def evBase : Order :=
  { id := "e1", orderId := "pub1", status := Status.PLACED, orderTime := 50 }

/-- A second order held by the same vendor store. -/
def evOther : Order :=
  { id := "e2", orderId := "pub2", status := Status.PLACED, orderTime := 60 }

/-- The broadcast event moving the order to `PREPARING`. -/
def evPreparing : Order :=
  { id := "e1", orderId := "pub1", status := Status.PREPARING, orderTime := 50 }

/-- The subsequent broadcast event moving the order to
`READY_FOR_PICKUP`. -/
def evReady : Order :=
  { id := "e1", orderId := "pub1", status := Status.READY_FOR_PICKUP, orderTime := 50 }

/-! ## Proofs -/

theorem mergeRuns_nil_right {α : Type} (le : α → α → Bool) (l : List α) :
    mergeRuns le l [] = l := by
  cases l <;> simp [mergeRuns]

theorem mergeRuns_perm {α : Type} (le : α → α → Bool) :
    ∀ l r : List α, List.Perm (mergeRuns le l r) (l ++ r)
  | [], r => by simp [mergeRuns]
  | a :: l, [] => by simp [mergeRuns]
  | a :: l, b :: r => by
    rw [mergeRuns]
    by_cases h : le a b
    · simpa [h] using (mergeRuns_perm le l (b :: r)).cons a
    · simp only [h, if_neg, Bool.false_eq_true, not_false_iff]
      exact ((mergeRuns_perm le (a :: l) r).cons b).trans List.perm_middle.symm
termination_by l r => l.length + r.length

theorem stableSort_perm {α : Type} (le : α → α → Bool) :
    ∀ l : List α, List.Perm (stableSort le l) l
  | [] => by simp [stableSort]
  | [a] => by simp [stableSort]
  | a :: b :: rest => by
    rw [stableSort]
    exact (mergeRuns_perm le _ _).trans
      (((stableSort_perm le _).append (stableSort_perm le _)).trans
        (by rw [List.take_append_drop]))
termination_by l => l.length
decreasing_by
  · simp only [List.length_take, List.length_cons]
    omega
  · simp only [List.length_drop, List.length_cons]
    omega

theorem mem_mergeRuns {α : Type} {le : α → α → Bool} {l r : List α} {x : α} :
    x ∈ mergeRuns le l r ↔ x ∈ l ∨ x ∈ r := by
  rw [(mergeRuns_perm le l r).mem_iff, List.mem_append]

theorem mem_stableSort {α : Type} {le : α → α → Bool} {l : List α} {x : α} :
    x ∈ stableSort le l ↔ x ∈ l :=
  (stableSort_perm le l).mem_iff

/-- Elements that are never on the losing side of a comparison keep their
places through a merge: their subsequence is the concatenation of their
subsequences of the two runs. -/
theorem filter_mergeRuns {α : Type} (le : α → α → Bool) (q : α → Bool)
    (h : ∀ a b, le a b = false → q a = false ∧ q b = false) :
    ∀ l r : List α, (mergeRuns le l r).filter q = l.filter q ++ r.filter q
  | [], r => by simp [mergeRuns]
  | a :: l, [] => by simp [mergeRuns]
  | a :: l, b :: r => by
    rw [mergeRuns]
    by_cases hab : le a b
    · simp only [hab, if_pos]
      rw [List.filter_cons, List.filter_cons]
      cases hq : q a <;>
        simp [hq, filter_mergeRuns le q h l (b :: r)]
    · have hq := h a b (Bool.of_not_eq_true hab)
      simp only [hab, if_neg, Bool.false_eq_true, not_false_iff]
      simp [List.filter_cons, hq.2, filter_mergeRuns le q h (a :: l) r]
  termination_by l r => l.length + r.length

/-- Elements that are never on the losing side of a comparison keep their
relative order through the whole stable sort. -/
theorem filter_stableSort {α : Type} (le : α → α → Bool) (q : α → Bool)
    (h : ∀ a b, le a b = false → q a = false ∧ q b = false) :
    ∀ l : List α, (stableSort le l).filter q = l.filter q
  | [] => by simp [stableSort]
  | [a] => by simp [stableSort]
  | a :: b :: rest => by
    rw [stableSort]
    rw [filter_mergeRuns le q h]
    rw [filter_stableSort le q h, filter_stableSort le q h]
    rw [← List.filter_append, List.take_append_drop]
  termination_by l => l.length
  decreasing_by
    · simp only [List.length_take, List.length_cons]
      omega
    · simp only [List.length_drop, List.length_cons]
      omega

/-- Merging depends on the comparator only at pairs drawn from the two runs. -/
theorem mergeRuns_congr {α : Type} {le le' : α → α → Bool} :
    ∀ {l r : List α}, (∀ a ∈ l, ∀ b ∈ r, le a b = le' a b) →
      mergeRuns le l r = mergeRuns le' l r
  | [], r, _ => by simp [mergeRuns]
  | a :: l, [], _ => by simp [mergeRuns]
  | a :: l, b :: r, h => by
    rw [mergeRuns, mergeRuns]
    rw [← h a (by simp) b (by simp)]
    by_cases hab : le a b
    · simp only [hab, if_pos]
      rw [mergeRuns_congr (fun x hx y hy => h x (List.mem_cons_of_mem a hx) y hy)]
    · simp only [hab, if_neg, Bool.false_eq_true, not_false_iff]
      rw [mergeRuns_congr (fun x hx y hy => h x hx y (List.mem_cons_of_mem b hy))]
  termination_by l r => l.length + r.length

/-- Sorting depends on the comparator only at pairs drawn from the list. -/
theorem stableSort_congr {α : Type} {le le' : α → α → Bool} :
    ∀ {l : List α}, (∀ a ∈ l, ∀ b ∈ l, le a b = le' a b) →
      stableSort le l = stableSort le' l
  | [], _ => by simp [stableSort]
  | [a], _ => by simp [stableSort]
  | a :: b :: rest, h => by
    rw [stableSort, stableSort]
    have htake : ∀ x ∈ (a :: b :: rest).take ((a :: b :: rest).length / 2),
        x ∈ a :: b :: rest := fun x hx => List.mem_of_mem_take hx
    have hdrop : ∀ x ∈ (a :: b :: rest).drop ((a :: b :: rest).length / 2),
        x ∈ a :: b :: rest := fun x hx => List.mem_of_mem_drop hx
    rw [stableSort_congr (fun x hx y hy => h x (htake x hx) y (htake y hy))]
    rw [stableSort_congr (fun x hx y hy => h x (hdrop x hx) y (hdrop y hy))]
    exact mergeRuns_congr fun x hx y hy =>
      h x (htake x (mem_stableSort.1 hx)) y (hdrop y (mem_stableSort.1 hy))
  termination_by l => l.length
  decreasing_by
    · simp only [List.length_take, List.length_cons]
      omega
    · simp only [List.length_drop, List.length_cons]
      omega

/-- Merging two runs that are each pairwise ordered yields a pairwise
ordered list, for a transitive and total comparator. -/
theorem pairwise_mergeRuns {α : Type} {le : α → α → Bool}
    (htrans : ∀ a b c, le a b = true → le b c = true → le a c = true)
    (htotal : ∀ a b, le a b = true ∨ le b a = true) :
    ∀ {l r : List α}, l.Pairwise (fun a b => le a b = true) →
      r.Pairwise (fun a b => le a b = true) →
      (mergeRuns le l r).Pairwise (fun a b => le a b = true)
  | [], r, _, hr => by simpa [mergeRuns] using hr
  | a :: l, [], hl, _ => by simpa [mergeRuns] using hl
  | a :: l, b :: r, hl, hr => by
    rw [mergeRuns]
    by_cases hab : le a b
    · simp only [hab, if_pos]
      refine List.Pairwise.cons ?_ (pairwise_mergeRuns htrans htotal hl.tail hr)
      intro x hx
      rcases mem_mergeRuns.1 hx with hx | hx
      · exact List.rel_of_pairwise_cons hl hx
      · rcases List.mem_cons.1 hx with rfl | hx
        · exact hab
        · exact htrans a b x hab (List.rel_of_pairwise_cons hr hx)
    · have hba : le b a = true := (htotal a b).resolve_left hab
      simp only [hab, if_neg, Bool.false_eq_true, not_false_iff]
      refine List.Pairwise.cons ?_ (pairwise_mergeRuns htrans htotal hl hr.tail)
      intro x hx
      rcases mem_mergeRuns.1 hx with hx | hx
      · rcases List.mem_cons.1 hx with rfl | hx
        · exact hba
        · exact htrans b a x hba (List.rel_of_pairwise_cons hl hx)
      · exact List.rel_of_pairwise_cons hr hx
  termination_by l r => l.length + r.length

/-- A transitive and total comparator makes `stableSort` produce a
pairwise ordered list. -/
theorem pairwise_stableSort {α : Type} {le : α → α → Bool}
    (htrans : ∀ a b c, le a b = true → le b c = true → le a c = true)
    (htotal : ∀ a b, le a b = true ∨ le b a = true) :
    ∀ l : List α, (stableSort le l).Pairwise (fun a b => le a b = true)
  | [] => by simp [stableSort]
  | [a] => by simp [stableSort]
  | a :: b :: rest => by
    rw [stableSort]
    exact pairwise_mergeRuns htrans htotal
      (pairwise_stableSort htrans htotal _) (pairwise_stableSort htrans htotal _)
  termination_by l => l.length
  decreasing_by
    · simp only [List.length_take, List.length_cons]
      omega
    · simp only [List.length_drop, List.length_cons]
      omega

/-! ## Lemmas about the store operations -/

theorem sortOrders_perm (l : List Order) : List.Perm (sortOrders l) l :=
  stableSort_perm keepsOrder l

theorem mem_sortOrders {l : List Order} {o : Order} :
    o ∈ sortOrders l ↔ o ∈ l :=
  (sortOrders_perm l).mem_iff

/-- When every record satisfying the search predicate is one and the
same record `u`, and one exists, `find?` returns `u` on any
permutation of the list. -/
theorem find?_eq_some_of_perm {l l' : List Order} {p : Order → Bool}
    {u : Order} (h : List.Perm l l')
    (hall : ∀ o ∈ l, p o = true → o = u)
    (hsome : ∃ o ∈ l, p o = true) : l'.find? p = some u := by
  have hs : (l'.find? p).isSome := by
    rw [List.find?_isSome]
    obtain ⟨o, ho, hp⟩ := hsome
    exact ⟨o, h.mem_iff.1 ho, hp⟩
  obtain ⟨o', ho'⟩ := Option.isSome_iff_exists.1 hs
  have hmem : o' ∈ l := h.mem_iff.2 (List.mem_of_find?_eq_some ho')
  rw [ho', hall o' hmem (List.find?_some ho')]

/-- Lookup by `find?` is invariant under permutation as soon as the satisfying
records are unique. -/
theorem find?_congr_perm {l l' : List Order} {p : Order → Bool}
    (h : List.Perm l l')
    (huniq : ∀ a ∈ l, ∀ b ∈ l, p a = true → p b = true → a = b) :
    l.find? p = l'.find? p := by
  cases hf : l.find? p with
  | none =>
    rw [List.find?_eq_none] at hf
    symm
    rw [List.find?_eq_none]
    exact fun x hx => hf x (h.mem_iff.2 hx)
  | some a =>
    rw [find?_eq_some_of_perm h
      (fun o ho hp =>
        huniq o ho a (List.mem_of_find?_eq_some hf) hp (List.find?_some hf))
      ⟨a, List.mem_of_find?_eq_some hf, List.find?_some hf⟩]

/-- The visible status under a custom `orderId` is `t` as soon as every
record carrying that `orderId` has status `t` and one exists. -/
theorem statusOf_eq_of_all {l : List Order} {x : String} {t : Status}
    (hall : ∀ o ∈ l, o.orderId = x → o.status = t)
    (hsome : ∃ o ∈ l, o.orderId = x) : statusOf l x = some t := by
  rw [statusOf]
  have hs : (l.find? fun o => o.orderId = x).isSome := by
    rw [List.find?_isSome]
    obtain ⟨o, ho, hp⟩ := hsome
    exact ⟨o, ho, by simpa using hp⟩
  obtain ⟨o', ho'⟩ := Option.isSome_iff_exists.1 hs
  have hmem : o' ∈ l := List.mem_of_find?_eq_some ho'
  have hp : o'.orderId = x := by simpa using List.find?_some ho'
  rw [ho']
  simp [hall o' hmem hp]

/-- With unique custom order identifiers, the visible status of each
order is invariant under permutation of the store. -/
theorem statusOf_congr_perm {l l' : List Order}
    (h : List.Perm l l') (hn : (l.map Order.orderId).Nodup)
    (x : String) : statusOf l x = statusOf l' x := by
  rw [statusOf, statusOf, find?_congr_perm h]
  intro a ha b hb hpa hpb
  exact List.inj_on_of_nodup_map hn ha hb
    (by rw [of_decide_eq_true hpa, of_decide_eq_true hpb])

/-- Every record of the optimistically mutated store that carries the
targeted `orderId` carries the new status. -/
theorem optimisticUpdate_all_matchers {l : List Order} {x : String}
    {t : Status} :
    ∀ o ∈ optimisticUpdate l x t, o.orderId = x → o.status = t := by
  intro o ho hx
  rw [optimisticUpdate] at ho
  rw [mem_sortOrders, List.mem_map] at ho
  obtain ⟨a, _, rfl⟩ := ho
  by_cases ha : a.orderId = x
  · simp [ha]
  · rw [if_neg ha] at hx ⊢
    exact absurd hx ha

/-- A record carrying the targeted `orderId` survives (as some record
carrying it) through the optimistic mutation. -/
theorem optimisticUpdate_some_matcher {l : List Order} {x : String}
    {t : Status} (hsome : ∃ o ∈ l, o.orderId = x) :
    ∃ o ∈ optimisticUpdate l x t, o.orderId = x := by
  obtain ⟨o, ho, hx⟩ := hsome
  refine ⟨if o.orderId = x then { o with status := t } else o, ?_, ?_⟩
  · rw [optimisticUpdate, mem_sortOrders, List.mem_map]
    exact ⟨o, ho, rfl⟩
  · by_cases h : o.orderId = x <;> simp [h, hx]

/-- The optimistic mutation of `handleStatusChange` makes the order
carrying the passed custom `orderId` show the requested status. -/
theorem statusOf_optimisticUpdate {l : List Order} {x : String}
    {t : Status} (hsome : ∃ o ∈ l, o.orderId = x) :
    statusOf (optimisticUpdate l x t) x = some t :=
  statusOf_eq_of_all optimisticUpdate_all_matchers
    (optimisticUpdate_some_matcher hsome)

/-- The custom order identifiers of the store are unchanged (up to
permutation) by the optimistic mutation. -/
theorem optimisticUpdate_map_orderId (l : List Order) (x : String)
    (t : Status) :
    List.Perm ((optimisticUpdate l x t).map Order.orderId)
      (l.map Order.orderId) := by
  rw [optimisticUpdate]
  refine ((sortOrders_perm _).map Order.orderId).trans (List.Perm.of_eq ?_)
  rw [List.map_map]
  refine List.map_congr_left fun a _ => ?_
  by_cases h : a.orderId = x <;> simp [Function.comp, h]

/-- With unique Mongo ids, `findIdx?` finds the matching record and
`set` at that index is the same as mapping the replacement. -/
theorem set_findIdx?_eq :
    ∀ {l : List Order} {u : Order},
      (l.map Order.id).Nodup → u.id ∈ l.map Order.id →
      ∃ i, l.findIdx? (fun o => o.id = u.id) = some i ∧
        l.set i u = l.map (replaceById u) := by
  intro l
  induction l with
  | nil => intro u _ hm; simp at hm
  | cons a l ih =>
    intro u hn hm
    by_cases ha : a.id = u.id
    · refine ⟨0, by simp [List.findIdx?_cons, ha], ?_⟩
      have htail : ∀ o ∈ l, o.id ≠ u.id := by
        intro o ho
        have : a.id ∉ l.map Order.id := by
          simp only [List.map_cons, List.nodup_cons] at hn
          exact hn.1
        rw [ha] at this
        exact fun h => this (h ▸ List.mem_map_of_mem Order.id ho)
      have hmap : l.map (replaceById u) = l := by
        refine (List.map_congr_left fun o ho => ?_).trans (List.map_id l)
        simp [replaceById, htail o ho]
      simp [replaceById, ha, hmap]
    · have hm' : u.id ∈ l.map Order.id := by
        simp only [List.map_cons, List.mem_cons] at hm
        exact hm.resolve_left fun h => ha h.symm
      have hn' : (l.map Order.id).Nodup := by
        simp only [List.map_cons, List.nodup_cons] at hn
        exact hn.2
      obtain ⟨i, hfind, hset⟩ := ih hn' hm'
      refine ⟨i + 1, ?_, ?_⟩
      · rw [List.findIdx?_cons, if_neg (by simpa using ha),
          List.findIdx?_succ, hfind]
        rfl
      · rw [List.set_cons_succ, hset, List.map_cons]
        simp [replaceById, ha]

/-- With unique Mongo ids the vendor ingest of an event for a present
order is exactly the sorted whole-record replacement. -/
theorem ingest_eq {l : List Order} {u : Order}
    (hn : (l.map Order.id).Nodup) (hm : u.id ∈ l.map Order.id) :
    ingest l u = sortOrders (l.map (replaceById u)) := by
  obtain ⟨i, hfind, hset⟩ := set_findIdx?_eq hn hm
  rw [ingest, hfind]
  simp only [hset]

/-- Ingest replaces the record wholesale: up to the re-sort, the store
is the original store with the matching record overwritten by the
event payload. -/
theorem ingest_perm_map {l : List Order} {u : Order}
    (hn : (l.map Order.id).Nodup) (hm : u.id ∈ l.map Order.id) :
    List.Perm (ingest l u) (l.map (replaceById u)) := by
  rw [ingest_eq hn hm]
  exact sortOrders_perm _

/-- After ingesting an event for a present order, the record looked up
by the Mongo id of the event is the event payload itself. -/
theorem recordOf_ingest {l : List Order} {u : Order}
    (hn : (l.map Order.id).Nodup) (hm : u.id ∈ l.map Order.id) :
    recordOf (ingest l u) u.id = some u := by
  rw [recordOf, ingest_eq hn hm]
  refine find?_eq_some_of_perm (sortOrders_perm _).symm ?_ ?_
  · intro o ho hp
    rw [List.mem_map] at ho
    obtain ⟨a, _, rfl⟩ := ho
    by_cases h : a.id = u.id
    · simp [replaceById, h]
    · rw [replaceById, if_neg h] at hp
      exact absurd (of_decide_eq_true hp) h
  · rw [List.mem_map] at hm
    obtain ⟨a, ha, haid⟩ := hm
    refine ⟨u, ?_, by simp⟩
    rw [List.mem_map]
    exact ⟨a, ha, by simp [replaceById, haid]⟩

/-- Ingest keeps the multiset of Mongo ids of the store. -/
theorem ingest_map_id_perm {l : List Order} {u : Order}
    (hn : (l.map Order.id).Nodup) (hm : u.id ∈ l.map Order.id) :
    List.Perm ((ingest l u).map Order.id) (l.map Order.id) := by
  refine ((ingest_perm_map hn hm).map Order.id).trans (List.Perm.of_eq ?_)
  rw [List.map_map]
  refine List.map_congr_left fun a _ => ?_
  by_cases h : a.id = u.id <;> simp [Function.comp, replaceById, h]

/-! ## Lemmas about the vendor queue sort and view -/

/-- A losing comparison only ever happens between two `PLACED` orders:
for every other pair the comparator returns the tie `0`. -/
theorem keepsOrder_eq_false {a b : Order} (h : keepsOrder a b = false) :
    a.status = Status.PLACED ∧ b.status = Status.PLACED := by
  by_cases hcond : a.status = Status.PLACED ∧ b.status = Status.PLACED
  · exact hcond
  · rw [keepsOrder, jsCompare, if_neg hcond] at h
    simp at h

theorem keepsOrder_eq_timeDesc {a b : Order}
    (ha : a.status = Status.PLACED) (hb : b.status = Status.PLACED) :
    keepsOrder a b = timeDesc a b := by
  rw [keepsOrder, jsCompare, if_pos ⟨ha, hb⟩, timeDesc]
  rw [decide_eq_decide]
  omega

theorem timeDesc_trans : ∀ a b c : Order,
    timeDesc a b = true → timeDesc b c = true → timeDesc a c = true := by
  intro a b c hab hbc
  simp only [timeDesc, decide_eq_true_eq] at hab hbc ⊢
  omega

theorem timeDesc_total : ∀ a b : Order,
    timeDesc a b = true ∨ timeDesc b a = true := by
  intro a b
  simp only [timeDesc, decide_eq_true_eq]
  omega

/-- On a store whose orders are all `PLACED`, the sort produces a
newest-first list. -/
theorem sortOrders_pairwise_of_all_placed {l : List Order}
    (hall : ∀ o ∈ l, o.status = Status.PLACED) :
    (sortOrders l).Pairwise (fun a b => b.orderTime ≤ a.orderTime) := by
  rw [sortOrders,
    stableSort_congr fun a ha b hb =>
      keepsOrder_eq_timeDesc (hall a ha) (hall b hb)]
  exact (pairwise_stableSort timeDesc_trans timeDesc_total l).imp
    fun h => by simpa [timeDesc] using h

/-- The sort leaves the subsequence of orders selected by any predicate
that excludes `PLACED` untouched: those orders tie with everything. -/
theorem filter_sortOrders_of_not_placed {q : Order → Bool}
    (hq : ∀ o, o.status = Status.PLACED → q o = false) (l : List Order) :
    (sortOrders l).filter q = l.filter q := by
  rw [sortOrders]
  exact filter_stableSort keepsOrder q
    (fun a b h =>
      ⟨hq a (keepsOrder_eq_false h).1, hq b (keepsOrder_eq_false h).2⟩) l

theorem count_filter_eq {p : Order → Bool} {a : Order} {l : List Order} :
    List.count a (l.filter p) = if p a = true then List.count a l else 0 := by
  by_cases h : p a = true
  · rw [if_pos h, List.count_filter h]
  · rw [if_neg h, List.count_eq_zero]
    intro hmem
    exact h (List.of_mem_filter hmem)

/-- The four sections of the vendor view partition the held orders:
every order lands in exactly one bucket. -/
theorem vendorView_partition (l : List Order) :
    List.Perm
      ((vendorView l).pending ++ (vendorView l).preparing ++
        (vendorView l).ready ++ (vendorView l).historical) l := by
  rw [List.perm_iff_count]
  intro a
  simp only [vendorView, List.count_append, count_filter_eq]
  cases ha : a.status <;> simp [ha]

/-! ## The claims -/

/-- Claim C1: a transition from s to t can be requested through the
vendor queue exactly when (s, t) is one of the legal edges PLACED to
PREPARING, PLACED to REJECTED, PREPARING to READY_FOR_PICKUP, and
READY_FOR_PICKUP to COMPLETED; every other ordered pair, including
self-pairs and backward transitions, has no action button, and orders
in COMPLETED or REJECTED are terminal: no further transition can be
requested for them. -/
theorem claim_C1 :
    (∀ s t : Status, t ∈ queueActions s ↔ (s, t) ∈ specLegalEdges)
    ∧ queueActions Status.COMPLETED = []
    ∧ queueActions Status.REJECTED = [] := by
  refine ⟨fun s t => ?_, rfl, rfl⟩
  cases s <;> cases t <;> decide

/-- Claim C3: a transition requested through the vendor queue is
dispatched over the synchronous HTTP PUT exactly when the current
status is PLACED and over the fire-and-forget stomp publish otherwise;
at most one dispatch attempt is made per call, and a dispatch failure
runs the catch branch, surfacing the failure (destructive toast) and
rolling the store back, with no retry. -/
theorem claim_C3 (stompConnected dispatchFails : Bool) (orders : List Order)
    (orderCustomId : String) (currentOrderStatus newStatus : Status)
    (vendorId : String) :
    (handleStatusChange stompConnected dispatchFails orders orderCustomId
        currentOrderStatus newStatus vendorId).requests.length ≤ 1
    ∧ (∀ r ∈ (handleStatusChange stompConnected dispatchFails orders
          orderCustomId currentOrderStatus newStatus vendorId).requests,
        (r.transport = Transport.http ↔ currentOrderStatus = Status.PLACED))
    ∧ (dispatchFails = true →
        (handleStatusChange stompConnected dispatchFails orders orderCustomId
            currentOrderStatus newStatus vendorId).errorToast = true
        ∧ (handleStatusChange stompConnected dispatchFails orders orderCustomId
            currentOrderStatus newStatus vendorId).rolledBack = true
        ∧ (handleStatusChange stompConnected dispatchFails orders orderCustomId
            currentOrderStatus newStatus vendorId).orders
            = rollbackOrders orders) := by
  by_cases hc : currentOrderStatus = Status.PLACED <;>
    cases stompConnected <;> cases dispatchFails <;>
      simp [handleStatusChange, routeTransport, hc]

/-- Concrete instance of claim C3: a failing synchronous accept
surfaces the failure after a single dispatch attempt. -/
theorem claim_C3_witness :
    (handleStatusChange true true [] "o1" Status.PLACED Status.PREPARING
        "v1").requests.length ≤ 1
    ∧ (handleStatusChange true true [] "o1" Status.PLACED Status.PREPARING
        "v1").errorToast = true :=
  ⟨(claim_C3 true true [] "o1" Status.PLACED Status.PREPARING "v1").1,
    ((claim_C3 true true [] "o1" Status.PLACED Status.PREPARING
      "v1").2.2 rfl).1⟩

/-- Claim C10: the client transition handler performs no legality
check of its own: for every pair of statuses passed to it, legal or
not, it applies the optimistic mutation and issues exactly one
dispatch, succeeding with no error surfaced; the only failures it ever
surfaces come from the transport (a failing dispatch or a disconnected
stomp client), never an InvalidTransition. -/
theorem claim_C10 (orders : List Order) (orderCustomId : String)
    (currentOrderStatus newStatus : Status) (vendorId : String) :
    handleStatusChange true false orders orderCustomId currentOrderStatus
        newStatus vendorId =
      { orders := optimisticUpdate orders orderCustomId newStatus,
        requests := [{ transport := routeTransport currentOrderStatus,
                       orderId := orderCustomId, newStatus := newStatus,
                       vendorId := vendorId }],
        rolledBack := false, errorToast := false }
    ∧ ∀ sc df : Bool,
        (handleStatusChange sc df orders orderCustomId currentOrderStatus
            newStatus vendorId).errorToast = true →
          df = true ∨ sc = false := by
  constructor
  · by_cases hc : currentOrderStatus = Status.PLACED <;>
      simp [handleStatusChange, hc]
  · intro sc df h
    cases df
    · cases sc
      · exact Or.inr rfl
      · by_cases hc : currentOrderStatus = Status.PLACED <;>
          simp [handleStatusChange, hc] at h
    · exact Or.inl rfl

/-- Concrete instance of claim C10: even the illegal pair COMPLETED to
PLACED is applied optimistically and dispatched without any error. -/
theorem claim_C10_witness :
    handleStatusChange true false [] "o1" Status.COMPLETED Status.PLACED
        "v1" =
      { orders := optimisticUpdate [] "o1" Status.PLACED,
        requests := [{ transport := routeTransport Status.COMPLETED,
                       orderId := "o1", newStatus := Status.PLACED,
                       vendorId := "v1" }],
        rolledBack := false, errorToast := false } :=
  (claim_C10 [] "o1" Status.COMPLETED Status.PLACED "v1").1

/-- Claim C9: scanning a QR code carrying the public order identifier
issues the synchronous HTTP PUT with target status COMPLETED for that
identifier, bypassing the queue UI, and the (spec-modelled) Transition
Validator on the server accepts the completion exactly when the order
currently sits at READY_FOR_PICKUP. -/
theorem claim_C9 (scannedOrderId vendorId : String) (o : Order) :
    (qrScanRequest scannedOrderId vendorId).transport = Transport.http
    ∧ (qrScanRequest scannedOrderId vendorId).newStatus = Status.COMPLETED
    ∧ (qrScanRequest scannedOrderId vendorId).orderId = scannedOrderId
    ∧ ((applyTransition o Status.COMPLETED).isOk = true ↔
        o.status = Status.READY_FOR_PICKUP)
    ∧ ∀ u : Order, applyTransition o Status.COMPLETED = Except.ok u →
        u = { o with status := Status.COMPLETED } := by
  refine ⟨rfl, rfl, rfl, ?_, ?_⟩
  · cases ho : o.status <;>
      simp [applyTransition, canTransition, specLegalEdges, ho,
        Except.isOk, Except.toBool]
  · intro u hu
    rw [applyTransition] at hu
    split at hu
    · injection hu with h
      exact h.symm
    · simp at hu

/-- Concrete instance of claim C9: the validator accepts the QR driven
completion of an order at READY_FOR_PICKUP. -/
theorem claim_C9_witness :
    (qrScanRequest "pub1" "v1").transport = Transport.http
    ∧ ((applyTransition evReady Status.COMPLETED).isOk = true ↔
        evReady.status = Status.READY_FOR_PICKUP) :=
  ⟨(claim_C9 "pub1" "v1" evReady).1,
    (claim_C9 "pub1" "v1" evReady).2.2.2.1⟩

/-- Claim C7, evaluated at the failing input: the Reject button passes
the Mongo id while the optimistic mutation matches records on the
custom orderId, so clicking Reject on a PLACED order leaves its visible
status PLACED instead of REJECTED; the Accept wiring on the very same
order does mutate it, confirming the slip is specific to Reject. -/
theorem claim_C7 :
    rejectArgs rejectOrder = ("mongo-1", Status.PLACED, Status.REJECTED)
    ∧ statusOf (handleStatusChange true false [rejectOrder]
        (rejectArgs rejectOrder).1 (rejectArgs rejectOrder).2.1
        (rejectArgs rejectOrder).2.2 "v1").orders "uuid-1"
        = some Status.PLACED
    ∧ statusOf (handleStatusChange true false [rejectOrder]
        (acceptArgs rejectOrder).1 (acceptArgs rejectOrder).2.1
        (acceptArgs rejectOrder).2.2 "v1").orders "uuid-1"
        = some Status.PREPARING := by
  refine ⟨rfl, ?_, ?_⟩ <;>
    simp [handleStatusChange, rejectArgs, acceptArgs, rejectOrder,
      optimisticUpdate, sortOrders, stableSort, statusOf, mergeRuns]

/-- Claim C2: ingesting a broadcast event for an order already present
in the client store replaces the whole local record with the event
payload (overwrite, not merge), so a server event always wins over a
pending optimistic mutation; after two sequential events for the same
order delivered in order on its topic, the visible record is exactly
the second event, hence its final status is the second event status.
The customer tracker replaces the tracked record outright as well. -/
theorem claim_C2 (l : List Order) (u1 u2 : Order) (t : Option Order)
    (hn : (l.map Order.id).Nodup) (hm : u1.id ∈ l.map Order.id)
    (hid : u2.id = u1.id) :
    List.Perm (ingest l u1) (l.map (replaceById u1))
    ∧ recordOf (ingest l u1) u1.id = some u1
    ∧ recordOf (ingest (ingest l u1) u2) u2.id = some u2
    ∧ trackerIngest (trackerIngest t u1) u2 = some u2 := by
  have hn1 : ((ingest l u1).map Order.id).Nodup :=
    ((ingest_map_id_perm hn hm).nodup_iff).2 hn
  have hm1 : u2.id ∈ (ingest l u1).map Order.id := by
    rw [hid]
    exact ((ingest_map_id_perm hn hm).mem_iff).2 hm
  exact ⟨ingest_perm_map hn hm, recordOf_ingest hn hm,
    recordOf_ingest hn1 hm1, rfl⟩

/-- Concrete instance of claim C2: the PLACED record is overwritten by
the PREPARING event, then by the READY_FOR_PICKUP event, whose record
is what the store finally shows. -/
theorem claim_C2_witness :
    List.Perm (ingest [evBase, evOther] evPreparing)
        ([evBase, evOther].map (replaceById evPreparing))
    ∧ recordOf (ingest [evBase, evOther] evPreparing) evPreparing.id
        = some evPreparing
    ∧ recordOf (ingest (ingest [evBase, evOther] evPreparing) evReady)
        evReady.id = some evReady
    ∧ trackerIngest (trackerIngest none evPreparing) evReady
        = some evReady :=
  claim_C2 [evBase, evOther] evPreparing evReady none
    (by decide) (by decide) rfl

/-- Claim C4 (amended): when a dispatched transition fails, the catch
branch replaces the store with the sorted snapshot captured when that
call started, so every order, the targeted one included, shows exactly
its snapshot status again; in particular, on the awaited synchronous
path out of PLACED (the one dispatch with a suspension point between
the snapshot and the catch), optimistic mutations applied to other
orders during the await are reverted too, rather than left
undisturbed. -/
theorem claim_C4 (s0 : List Order) (y : String)
    (hn : (s0.map Order.orderId).Nodup) :
    List.Perm (rollbackOrders s0) s0
    ∧ statusOf (rollbackOrders s0) y = statusOf s0 y := by
  have hn' : ((rollbackOrders s0).map Order.orderId).Nodup :=
    (((sortOrders_perm s0).map Order.orderId).nodup_iff).2 hn
  exact ⟨sortOrders_perm s0, statusOf_congr_perm (sortOrders_perm s0) hn' y⟩

/-- Counterexample to claim C4 as stated: the accept of PLACED order a
takes the synchronous HTTP path and is awaited, with cxStore0 as its
entry snapshot; during the await, order b (PREPARING) is optimistically
marked ready and shows READY_FOR_PICKUP (a fire-and-forget dispatch
that does not fail); when the awaited call then rejects, the catch
replaces the store with the entry snapshot, so b reverts to PREPARING:
the concurrent optimistic mutation on the other order is disturbed,
while the targeted order a is restored to PLACED. -/
theorem claim_C4_counterexample :
    statusOf cxStore0 "b" = some Status.PREPARING
    ∧ statusOf cxStore2 "b" = some Status.READY_FOR_PICKUP
    ∧ statusOf (rollbackOrders cxStore0) "b" = some Status.PREPARING
    ∧ statusOf (rollbackOrders cxStore0) "a" = some Status.PLACED := by
  refine ⟨?_, ?_, ?_, ?_⟩ <;>
    simp [cxStore2, cxStore1, cxStore0, cxOrderA, cxOrderB,
      optimisticUpdate, rollbackOrders, sortOrders, stableSort, mergeRuns,
      keepsOrder, jsCompare, statusOf]

/-- Concrete instance of claim C4 (amended): the failing call rollback
returns the store to its snapshot. -/
theorem claim_C4_witness :
    List.Perm (rollbackOrders cxStore0) cxStore0
    ∧ statusOf (rollbackOrders cxStore0) "b" = statusOf cxStore0 "b" :=
  claim_C4 cxStore0 "b" (by decide)

/-- Claim C5 (amended): when two optimistic mutations hit the same
order before either confirms, the snapshot the second call captures is
the store at its entry, which already carries the first mutation; a
single rollback with that snapshot therefore restores the first
mutation result for that order, not its original pre-mutation state. -/
theorem claim_C5 (s0 : List Order) (x : String) (t1 : Status)
    (hx : ∃ o ∈ s0, o.orderId = x) :
    statusOf (optimisticUpdate s0 x t1) x = some t1
    ∧ statusOf (rollbackOrders (optimisticUpdate s0 x t1)) x = some t1 := by
  refine ⟨statusOf_optimisticUpdate hx, ?_⟩
  rw [rollbackOrders]
  refine statusOf_eq_of_all ?_ ?_
  · intro o ho hox
    exact optimisticUpdate_all_matchers o (mem_sortOrders.1 ho) hox
  · obtain ⟨o, ho, hox⟩ := optimisticUpdate_some_matcher hx
    exact ⟨o, mem_sortOrders.2 ho, hox⟩

/-- Counterexample to claim C5 as stated: order s starts PLACED, is
optimistically moved to PREPARING, then to READY_FOR_PICKUP; the
second call captured the store holding the first mutation, so the
rollback leaves s at PREPARING, not at its original PLACED. -/
theorem claim_C5_counterexample :
    statusOf [cxSame] "s" = some Status.PLACED
    ∧ statusOf (rollbackOrders (optimisticUpdate [cxSame] "s"
        Status.PREPARING)) "s" = some Status.PREPARING
    ∧ some Status.PREPARING ≠ some Status.PLACED := by
  refine ⟨?_, ?_, ?_⟩
  · simp [cxSame, statusOf]
  · simp [cxSame, optimisticUpdate, rollbackOrders, sortOrders, stableSort,
      mergeRuns, statusOf]
  · simp

/-- Concrete instance of claim C5 (amended). -/
theorem claim_C5_witness :
    statusOf (optimisticUpdate [cxSame] "s" Status.PREPARING) "s"
        = some Status.PREPARING
    ∧ statusOf (rollbackOrders (optimisticUpdate [cxSame] "s"
        Status.PREPARING)) "s" = some Status.PREPARING :=
  claim_C5 [cxSame] "s" Status.PREPARING
    ⟨cxSame, List.mem_singleton.mpr rfl, rfl⟩

/-- Claim C6 (amended): the vendor view partitions the held orders into
four buckets (PLACED, PREPARING, READY_FOR_PICKUP, and
COMPLETED/REJECTED merged as historical), and the view is a pure
function of the held list, hence deterministic; the non-PLACED buckets
preserve arrival order exactly; the PLACED bucket holds exactly the
PLACED orders and is newest-placed-first whenever every held order is
PLACED, though not in general, because the comparator treats pairs
that are not both PLACED as ties (see the counterexample). -/
theorem claim_C6 (l : List Order) :
    List.Perm
      ((vendorView (sortOrders l)).pending
        ++ (vendorView (sortOrders l)).preparing
        ++ (vendorView (sortOrders l)).ready
        ++ (vendorView (sortOrders l)).historical) l
    ∧ (vendorView (sortOrders l)).preparing
        = l.filter (fun o => o.status = Status.PREPARING)
    ∧ (vendorView (sortOrders l)).ready
        = l.filter (fun o => o.status = Status.READY_FOR_PICKUP)
    ∧ (vendorView (sortOrders l)).historical
        = l.filter (fun o =>
            o.status = Status.COMPLETED ∨ o.status = Status.REJECTED)
    ∧ List.Perm (vendorView (sortOrders l)).pending
        (l.filter (fun o => o.status = Status.PLACED))
    ∧ ((∀ o ∈ l, o.status = Status.PLACED) →
        (vendorView (sortOrders l)).pending.Pairwise
          (fun a b => b.orderTime ≤ a.orderTime)) := by
  refine ⟨?_, ?_, ?_, ?_, ?_, ?_⟩
  · exact (vendorView_partition (sortOrders l)).trans (sortOrders_perm l)
  · exact filter_sortOrders_of_not_placed (fun o h => by simp [h]) l
  · exact filter_sortOrders_of_not_placed (fun o h => by simp [h]) l
  · exact filter_sortOrders_of_not_placed (fun o h => by simp [h]) l
  · exact (sortOrders_perm l).filter _
  · intro hall
    have hp : (vendorView (sortOrders l)).pending = sortOrders l := by
      simp only [vendorView]
      rw [List.filter_eq_self]
      intro o ho
      simpa using hall o (mem_sortOrders.1 ho)
    rw [hp]
    exact sortOrders_pairwise_of_all_placed hall

/-- Counterexample to claim C6 as stated: with the two PLACED orders
separated by two PREPARING orders in arrival order, the stable sort
never compares the PLACED pair directly (every comparison involving a
PREPARING order is a tie), so the PLACED bucket comes out oldest
first, violating newest-placed-first. -/
theorem claim_C6_counterexample :
    (vendorView (sortOrders exQueue)).pending = [exPlacedOld, exPlacedNew]
    ∧ exPlacedOld.orderTime < exPlacedNew.orderTime := by
  constructor
  · simp [vendorView, sortOrders, stableSort, mergeRuns, keepsOrder,
      jsCompare, exQueue, exPlacedOld, exPrepA, exPrepB, exPlacedNew]
  · decide

/-- Concrete instance of claim C6 (amended): the four buckets of the
counterexample queue partition it. -/
theorem claim_C6_witness :
    List.Perm
      ((vendorView (sortOrders exQueue)).pending
        ++ (vendorView (sortOrders exQueue)).preparing
        ++ (vendorView (sortOrders exQueue)).ready
        ++ (vendorView (sortOrders exQueue)).historical) exQueue :=
  (claim_C6 exQueue).1

theorem foldl_add_eq_sum {α : Type} (f : α → Rat) :
    ∀ (l : List α) (c : Rat),
      l.foldl (fun sum i => sum + f i) c = c + (l.map f).sum
  | [], c => by simp
  | a :: l, c => by
    rw [List.foldl_cons, foldl_add_eq_sum f l (c + f a), List.map_cons,
      List.sum_cons]
    ring

/-- The checkout subtotal is the sum over the posted line items of
snapshot price times quantity. -/
theorem subtotal_eq_lineItemSum (items : List CheckoutItem) :
    subtotal items = lineItemSum (orderPayload items).items := by
  rw [subtotal, foldl_add_eq_sum, lineItemSum, orderPayload]
  simp only [List.map_map, zero_add]
  rfl

/-- Claim C8 (amended): every order created by the checkout flow is
created with status PLACED, and with total amount equal to the sum
over its line items of snapshot price times quantity PLUS a 5 percent
tax on that sum rounded to the nearest integer (Math.round), rather
than the bare sum. -/
theorem claim_C8 (items : List CheckoutItem) :
    (orderPayload items).status = Status.PLACED
    ∧ (orderPayload items).totalAmount =
        lineItemSum (orderPayload items).items
          + (jsRound (lineItemSum (orderPayload items).items * (5 / 100))
              : Rat) := by
  refine ⟨rfl, ?_⟩
  rw [← subtotal_eq_lineItemSum]
  rfl

/-- Counterexample to claim C8 as stated: one line item at snapshot
price 100, quantity 1: the posted total amount is 105 (the 5 percent
tax is included), not the bare line item sum 100. -/
theorem claim_C8_counterexample :
    (orderPayload [cxItem]).status = Status.PLACED
    ∧ lineItemSum (orderPayload [cxItem]).items = 100
    ∧ (orderPayload [cxItem]).totalAmount = 105
    ∧ (orderPayload [cxItem]).totalAmount
        ≠ lineItemSum (orderPayload [cxItem]).items := by
  refine ⟨rfl, ?_, ?_, ?_⟩
  · norm_num [lineItemSum, orderPayload, cxItem]
  · norm_num [orderPayload, total, subtotal, taxes, jsRound, cxItem]
  · norm_num [orderPayload, total, subtotal, taxes, jsRound, lineItemSum,
      cxItem]

/-- Concrete instance of claim C8 (amended): the payload status is
PLACED. -/
theorem claim_C8_witness :
    (orderPayload [cxItem]).status = Status.PLACED :=
  (claim_C8 [cxItem]).1

end BitesSpace
